import Mathlib

/-!
Verification of the tide-table scraping and normalization pipeline of
`src/UtilitiesDashboard.py` (functions `get_day_suffix`, `scrape_tide_times`,
`fetch_scraped_tides`, lines 24-182).

The Python code is shallowly embedded as executable Lean definitions:

* Python `dict` objects become insertion-ordered association lists
  (`dictInsert` overwrites in place, like a Python dict assignment).
* `re.findall(r"(Low|High) (\d{2}:\d{2}[ap]m) \((\d+\.\d+m)\)", text)` becomes
  the left-to-right scanner `findall` (the pattern has no nondeterminism, so
  the scanner is an exact model of the regex scan).
* The BeautifulSoup element tree becomes the inductive `Node`; `find`,
  `find_all` and `find_next_sibling` become pre-order traversals.  Python
  truthiness of a bs4 `Tag` goes through `Tag.__len__` (the number of
  children), so a found-but-empty tag is falsy; `truthy` models this.
* The reference instant `datetime.now()` becomes a day count `n` since
  1970-01-01 (a Thursday); `dayOfMonth` is the standard civil-from-days
  conversion and `weekdayAbbrev` the C-locale `strftime("%a")` table.
* The network fetch and the HTML parse preceding row location are summarized
  by their result: `none` for any transport/structure failure, `some` for a
  located header/data cell pair.
-/

/-! ## Insertion-ordered dictionaries (Python `dict` model) -/

/-- Assignment `d[k] = v` on a Python dict: overwrite in place if the key is
present, otherwise append the new pair at the end. -/
def dictInsert {β : Type} (d : List (String × β)) (k : String) (v : β) :
    List (String × β) :=
  match d with
  | [] => [(k, v)]
  | (k₀, v₀) :: rest =>
    if k₀ = k then (k, v) :: rest else (k₀, v₀) :: dictInsert rest k v

/-- Lookup `d.get(k)` on a Python dict. -/
def dictLookup {β : Type} (d : List (String × β)) (k : String) : Option β :=
  match d with
  | [] => none
  | (k₀, v₀) :: rest => if k₀ = k then some v₀ else dictLookup rest k

/-- Key list of a Python dict, in insertion order. -/
def dictKeys {β : Type} (d : List (String × β)) : List String :=
  d.map Prod.fst

/-! ## `get_day_suffix` (src/UtilitiesDashboard.py lines 24-30) -/

/-- Embedding of `get_day_suffix`: the teens rule first, then the
`{1: 'st', 2: 'nd', 3: 'rd'}.get(day % 10, 'th')` table. -/
def get_day_suffix (day : Nat) : String :=
  if 10 ≤ day % 100 ∧ day % 100 ≤ 20 then "th"
  else
    match day % 10 with
    | 1 => "st"
    | 2 => "nd"
    | 3 => "rd"
    | _ => "th"

/-! ## Target-day labels (src/UtilitiesDashboard.py lines 160-168) -/

/-- Day of month of the Gregorian date `n` days after 1970-01-01, by the
standard civil-from-days conversion (all quantities stay nonnegative, so
natural subtraction agrees with integer subtraction). -/
def dayOfMonth (n : Nat) : Nat :=
  let z := n + 719468
  let doe := z % 146097
  let yoe := (doe - doe / 1460 + doe / 36524 - doe / 146096) / 365
  let doy := doe - (365 * yoe + yoe / 4 - yoe / 100)
  let mp := (5 * doy + 2) / 153
  doy - (153 * mp + 2) / 5 + 1

/-- C-locale `strftime("%a")` for the date `n` days after 1970-01-01, which
was a Thursday. -/
def weekdayAbbrev (n : Nat) : String :=
  ["Thu", "Fri", "Sat", "Sun", "Mon", "Tue", "Wed"].getD (n % 7) "Thu"

/-- Python `sep.join(parts)`. -/
def joinSep (sep : String) : List String → String
  | [] => ""
  | [x] => x
  | x :: xs => x ++ sep ++ joinSep sep xs

/-- The `day_format` lambda of `fetch_scraped_tides`:
`f"{dt.strftime('%a')}, {dt.day}{get_day_suffix(dt.day)}"`. -/
def day_format (n : Nat) : String :=
  weekdayAbbrev n ++ (", " ++ (toString (dayOfMonth n) ++ get_day_suffix (dayOfMonth n)))

/-- The `target_days_list` of `fetch_scraped_tides`: labels for the reference
day, the next day and the day after. -/
def buildTargetDays (n : Nat) : List String :=
  [day_format n, day_format (n + 1), day_format (n + 2)]

/-! ## Event extraction (src/UtilitiesDashboard.py line 119)

The regex `(Low|High) (\d{2}:\d{2}[ap]m) \((\d+\.\d+m)\)` is deterministic:
the two alternatives of group 1 start with different letters, and each `\d+`
is followed by a non-digit literal, so greedy matching is a maximal digit
run.  `re.findall` scans left to right, emits the group triple of the
leftmost match and resumes after it; `matchAt` is the anchored pattern and
`findall` the scan. -/

/-- One extracted tide event: the triple of regex groups
(kind, clock time, height-with-unit). -/
structure TideEvent where
  kind : String
  time : String
  height : String
deriving DecidableEq, Repr

/-- Group 1 plus the following literal space: `(Low|High) `. -/
def matchKind (cs : List Char) : Option (String × List Char) :=
  if cs.take 4 = ['L', 'o', 'w', ' '] then some ("Low", cs.drop 4)
  else if cs.take 5 = ['H', 'i', 'g', 'h', ' '] then some ("High", cs.drop 5)
  else none

/-- Shape test for group 2: exactly `\d{2}:\d{2}[ap]m`. -/
def isTimeChunk (l : List Char) : Bool :=
  match l with
  | [d₁, d₂, c, d₃, d₄, ap, m] =>
    d₁.isDigit && d₂.isDigit && c == ':' && d₃.isDigit && d₄.isDigit &&
      (ap == 'a' || ap == 'p') && m == 'm'
  | _ => false

/-- Group 2: `(\d{2}:\d{2}[ap]m)`, seven characters. -/
def matchTime (cs : List Char) : Option (String × List Char) :=
  if isTimeChunk (cs.take 7) then some (String.mk (cs.take 7), cs.drop 7)
  else none

/-- Group 3: `(\d+\.\d+m)` — a maximal nonempty digit run, a literal dot,
a maximal nonempty digit run, then `m`. -/
def matchHeight (cs : List Char) : Option (String × List Char) :=
  if (cs.takeWhile Char.isDigit).isEmpty then none
  else
    match cs.dropWhile Char.isDigit with
    | '.' :: r₂ =>
      if (r₂.takeWhile Char.isDigit).isEmpty then none
      else
        match r₂.dropWhile Char.isDigit with
        | 'm' :: r₄ =>
          some
            (String.mk
              (cs.takeWhile Char.isDigit ++
                '.' :: (r₂.takeWhile Char.isDigit ++ ['m'])), r₄)
        | _ => none
    | _ => none

/-- The full anchored pattern
`(Low|High) (\d{2}:\d{2}[ap]m) \((\d+\.\d+m)\)` at the start of `cs`;
returns the three groups and the rest of the input. -/
def matchAt (cs : List Char) : Option (TideEvent × List Char) :=
  match matchKind cs with
  | none => none
  | some (k, r₁) =>
    match matchTime r₁ with
    | none => none
    | some (t, r₂) =>
      match r₂ with
      | ' ' :: '(' :: r₃ =>
        match matchHeight r₃ with
        | none => none
        | some (h, r₄) =>
          match r₄ with
          | ')' :: r₅ => some (⟨k, t, h⟩, r₅)
          | _ => none
      | _ => none

/-- Left-to-right non-overlapping scan of `re.findall`: at each position try
the anchored pattern; on a match emit it and resume after the match,
otherwise slide one character.  The fuel argument only bounds the recursion;
`findallFuel_congr` below shows any fuel of at least the input length gives
the same result. -/
def findallFuel : Nat → List Char → List TideEvent
  | 0, _ => []
  | _ + 1, [] => []
  | fuel + 1, c :: cs =>
    match matchAt (c :: cs) with
    | some (e, rest) => e :: findallFuel fuel rest
    | none => findallFuel fuel cs

/-- The `re.findall` call of `scrape_tide_times` on a cell text. -/
def findall (s : String) : List TideEvent :=
  findallFuel s.data.length s.data

/-- Rendering of one event, from line 125:
`f"<b>{tide[0]}</b> {tide[1]} ({tide[2]})"`. -/
def renderEvent (e : TideEvent) : String :=
  "<b>" ++ (e.kind ++ ("</b> " ++ (e.time ++ (" (" ++ (e.height ++ ")")))))

/-- The display string for a cell, from line 128: `" | ".join(tide_events)`. -/
def renderSchedule (evs : List TideEvent) : String :=
  joinSep " | " (evs.map renderEvent)

/-! ## Cell pairing, day table and filtering (src/UtilitiesDashboard.py lines 102-141) -/

/-- Python `str.split()` with no separator: the maximal non-whitespace runs
of the text, in order (no empty pieces).  `acc` holds the reversed current
run. -/
def splitWordsAux : List Char → List Char → List (List Char)
  | [], acc => if acc.isEmpty then [] else [acc.reverse]
  | c :: cs, acc =>
    if c.isWhitespace then
      if acc.isEmpty then splitWordsAux cs []
      else acc.reverse :: splitWordsAux cs []
    else splitWordsAux cs (c :: acc)

/-- Line 113: `" ".join(header_cell.text.split())` — collapse whitespace runs
to single spaces and trim. -/
def normalizeSpace (s : String) : String :=
  joinSep " " ((splitWordsAux s.data []).map String.mk)

/-- The loop of lines 110-128: `for i, header_cell in enumerate(headers)`,
guarded by `i < len(data_cells)`, assigning
`daily_data[day_name] = " | ".join(tide_events)`. -/
def buildDailyDataAux (headers dataCells : List String) (i : Nat)
    (acc : List (String × String)) : List (String × String) :=
  match headers with
  | [] => acc
  | h :: hs =>
    buildDailyDataAux hs dataCells (i + 1)
      (if i < dataCells.length then
        dictInsert acc (normalizeSpace h)
          (renderSchedule (findall (dataCells.getD i "")))
      else acc)

/-- The `daily_data` dict of `scrape_tide_times`. -/
def buildDailyData (headers dataCells : List String) : List (String × String) :=
  buildDailyDataAux headers dataCells 0 []

/-- Embedding of `scrape_tide_times` from the point where the header cells and
data cells have been located.  The argument summarizes the fetch/locate
stages: `none` when the HTTP request, the table lookup or the row location
failed (the function then returns `None`), `some (headers, dataCells)` with
the cell texts otherwise.  Lines 102-104 validate the two cell collections,
lines 108-141 build and filter the day table. -/
def scrape_tide_times (located : Option (List String × List String))
    (target_days : List String) : Option (List (String × String)) :=
  match located with
  | none => none
  | some (headers, dataCells) =>
    if headers = [] ∨ dataCells = [] ∨ headers.length ≠ dataCells.length then
      none
    else
      some (target_days.foldl
        (fun acc day =>
          dictInsert acc day
            (match dictLookup (buildDailyData headers dataCells) day with
             | some v => v
             | none => "Data not found"))
        [])

/-- Line 180: `{day: "Data unavailable" for day in target_days_list}`. -/
def fallbackTable (target_days : List String) : List (String × String) :=
  target_days.foldl (fun acc day => dictInsert acc day "Data unavailable") []

/-- Lines 174-180 for one location: keep a truthy scrape result, otherwise the
all-sentinel fallback dict.  Python truthiness of a dict (`if tide_data:`)
is emptiness, so an empty result dict also falls back. -/
def locationEntry (located : Option (List String × List String))
    (target_days : List String) : List (String × String) :=
  match scrape_tide_times located target_days with
  | some d => if d.isEmpty then fallbackTable target_days else d
  | none => fallbackTable target_days

/-- The `locations_to_scrape` dict of `fetch_scraped_tides` (lines 154-157). -/
def locations_to_scrape : List (String × String) :=
  [("Cork", "https://www.tidetime.org/europe/ireland/cork.htm"),
   ("Kerry", "https://www.tidetime.org/europe/ireland/fenit.htm")]

/-- Embedding of `fetch_scraped_tides`: compute the three target-day labels
from the reference day `refDay`, run every configured location through
`scrape_tide_times` and collect one entry per location.  `outcome` gives,
per URL, the located cell data of that location (or `none` for a failed
fetch/locate), abstracting the network. -/
def fetch_scraped_tides
    (outcome : String → Option (List String × List String)) (refDay : Nat) :
    List (String × List (String × String)) :=
  locations_to_scrape.map
    (fun loc => (loc.1, locationEntry (outcome loc.2) (buildTargetDays refDay)))

/-! ## The HTML element tree and the table locator (lines 57-99)

`Node` models the parsed markup: element tags with their child list, plus
text nodes.  bs4's `find(name)` / `find_all(name)` search the descendants in
document (pre-order) order; `find_next_sibling(name)` scans the following
siblings in the node's actual parent.  bs4 `Tag` truthiness goes through
`__len__`, the number of direct children, so an *empty* found tag is falsy —
`truthy` reproduces this. -/

inductive Node where
  | elem (tag : String) (children : List Node)
  | text (s : String)

/-- Tag test used by the searches; text nodes never match a tag name. -/
def Node.isTag (t : String) : Node → Bool
  | .elem tag _ => tag == t
  | .text _ => false

/-- Child list; text nodes have none. -/
def Node.kids : Node → List Node
  | .elem _ cs => cs
  | .text _ => []

mutual

/-- bs4 `node.find(tag)`: first matching element among the descendants in
document order (the node itself is not a candidate). -/
def findD (tag : String) : Node → Option Node
  | .elem _ cs => findL tag cs
  | .text _ => none

/-- Document-order search of a forest: try each root, then its descendants,
then the following roots. -/
def findL (tag : String) : List Node → Option Node
  | [] => none
  | c :: cs =>
    if c.isTag tag then some c
    else
      match findD tag c with
      | some r => some r
      | none => findL tag cs

end

mutual

/-- bs4 `node.find_all(tag)`: all matching descendants in document order
(matching elements are themselves searched further). -/
def findAllD (tag : String) : Node → List Node
  | .elem _ cs => findAllL tag cs
  | .text _ => []

/-- Document-order `find_all` over a forest. -/
def findAllL (tag : String) : List Node → List Node
  | [] => []
  | c :: cs =>
    (if c.isTag tag then [c] else []) ++ findAllD tag c ++ findAllL tag cs

end

mutual

/-- Search the descendants of one node for `tag`, keeping sibling context. -/
def findWithSibsD (tag : String) : Node → Option (Node × List Node)
  | .elem _ cs => findWithSibs tag cs
  | .text _ => none

/-- Like `findL`, but also return the following siblings of the found node in
its actual parent, which is what `find_next_sibling` consults. -/
def findWithSibs (tag : String) : List Node → Option (Node × List Node)
  | [] => none
  | c :: cs =>
    if c.isTag tag then some (c, cs)
    else
      match findWithSibsD tag c with
      | some p => some p
      | none => findWithSibs tag cs

end

/-- Python truthiness of a bs4 search result: `None` is falsy, a tag is falsy
iff it has no children (`Tag.__len__`), a text node iff it is empty. -/
def truthy : Option Node → Bool
  | none => false
  | some (.elem _ cs) => !cs.isEmpty
  | some (.text s) => !(s == "")

/-- Lines 71-72: `thead = table.find('thead')`;
`header_row = thead.find('tr') if thead else table.find('tr')`, with the
sibling context of the header row kept for step (b). -/
def headerSearch (table : Node) : Option (Node × List Node) :=
  match findD "thead" table with
  | some th =>
    if truthy (some th) then findWithSibs "tr" th.kids
    else findWithSibs "tr" table.kids
  | none => findWithSibs "tr" table.kids

/-- Strategy (a), lines 81-82: `tbody = table.find('tbody')`;
`data_row = tbody.find('tr') if tbody else None`. -/
def tbodyRow (table : Node) : Option Node :=
  match findD "tbody" table with
  | some tb => if truthy (some tb) then findD "tr" tb else none
  | none => none

/-- Strategy (b), line 86: `header_row.find_next_sibling('tr')`. -/
def siblingRow (sibs : List Node) : Option Node :=
  sibs.find? (fun n => n.isTag "tr")

/-- Strategy (c), lines 91-93: `all_rows = table.find_all('tr')`;
`all_rows[1]` when there are at least two rows. -/
def secondRow (table : Node) : Option Node :=
  if (findAllD "tr" table).length > 1 then (findAllD "tr" table)[1]?
  else none

/-- The table locator of lines 71-97: locate the header row (inside `thead`
if one is truthy, else anywhere in the table), fail if it is falsy; then the
data row by strategy (a), else (b), else (c); fail if the result is falsy.
Returns the header row and the data row. -/
def locateRows (table : Node) : Option (Node × Node) :=
  match headerSearch table with
  | none => none
  | some (hr, sibs) =>
    if truthy (some hr) then
      let d₀ := tbodyRow table
      let d₁ :=
        if truthy d₀ then d₀
        else
          if truthy (siblingRow sibs) then siblingRow sibs
          else
            match secondRow table with
            | some r => some r
            | none => d₀
      match d₁ with
      | some dr => if truthy (some dr) then some (hr, dr) else none
      | none => none
    else none

/-! ## The network call (src/UtilitiesDashboard.py lines 45-52) -/

/-- Keyword arguments of a `requests.get` call. -/
structure RequestsGetCall where
  url : String
  userAgent : String
  verify : Bool
  timeout : Option Nat

/-- The exact call of line 52,
`requests.get(url, headers=headers, verify=False)`: a browser-like identity
header, SSL verification disabled, and *no* `timeout` argument — the
requests default, under which the call can wait forever. -/
def tideFetchCall (url : String) : RequestsGetCall :=
  { url := url
    userAgent := "Mozilla/5.0 (Windows NT 10.0; Win64; x64) AppleWebKit/537.36 (KHTML, like Gecko) Chrome/91.0.4472.124 Safari/537.36"
    verify := false
    timeout := none }

/-! ## Concrete sample markup (the spec's two-row fallback test) -/

/-- Header row of the sample table: one `th` cell. -/
def sampleHeaderRow : Node := .elem "tr" [.elem "th" [.text "Thu, 1st"]]

/-- Data row of the sample table: one `td` cell. -/
def sampleDataRow : Node := .elem "tr" [.elem "td" [.text "Low 05:33am (2.02m)"]]

/-- A table with no `thead` and no `tbody`, containing exactly two `tr`
elements: header first, data second. -/
def sampleTable : Node := .elem "table" [sampleHeaderRow, sampleDataRow]

/-! ## Consumption bounds for the scanner -/

theorem length_dropWhile_le (p : Char → Bool) (l : List Char) :
    (l.dropWhile p).length ≤ l.length := by
  induction l with
  | nil => simp [List.dropWhile]
  | cons c cs ih =>
    simp only [List.dropWhile]
    split
    · simp only [List.length_cons]; omega
    · simp

theorem matchKind_lt {cs : List Char} {k : String} {r : List Char}
    (h : matchKind cs = some (k, r)) : r.length < cs.length := by
  unfold matchKind at h
  split at h
  · rename_i h₄
    injection h with h'
    injection h' with hk hr
    have h₄l : (cs.take 4).length = 4 := by rw [h₄]; rfl
    simp only [List.length_take] at h₄l
    subst hr
    simp only [List.length_drop]
    omega
  · split at h
    · rename_i h₅
      injection h with h'
      injection h' with hk hr
      have h₅l : (cs.take 5).length = 5 := by rw [h₅]; rfl
      simp only [List.length_take] at h₅l
      subst hr
      simp only [List.length_drop]
      omega
    · exact absurd h (by simp)

theorem matchTime_le {cs : List Char} {t : String} {r : List Char}
    (h : matchTime cs = some (t, r)) : r.length ≤ cs.length := by
  unfold matchTime at h
  split at h
  · injection h with h'
    injection h' with ht hr
    subst hr
    simp only [List.length_drop]
    omega
  · exact absurd h (by simp)

theorem matchHeight_le {cs : List Char} {h : String} {r : List Char}
    (hm : matchHeight cs = some (h, r)) : r.length ≤ cs.length := by
  unfold matchHeight at hm
  split at hm
  · exact absurd hm (by simp)
  · split at hm
    · rename_i r₂ hdrop
      split at hm
      · exact absurd hm (by simp)
      · split at hm
        · rename_i r₄ hdrop₂
          injection hm with h'
          injection h' with hh hr
          subst hr
          have h₁ : (cs.dropWhile Char.isDigit).length ≤ cs.length :=
            length_dropWhile_le _ _
          have h₂ : (r₂.dropWhile Char.isDigit).length ≤ r₂.length :=
            length_dropWhile_le _ _
          rw [hdrop] at h₁
          rw [hdrop₂] at h₂
          simp only [List.length_cons] at h₁ h₂
          omega
        · exact absurd hm (by simp)
    · exact absurd hm (by simp)

theorem matchAt_lt {cs : List Char} {e : TideEvent} {r : List Char}
    (h : matchAt cs = some (e, r)) : r.length < cs.length := by
  unfold matchAt at h
  split at h
  · exact absurd h (by simp)
  · rename_i k r₁ hkind
    split at h
    · exact absurd h (by simp)
    · rename_i t r₂ htime
      split at h
      · rename_i r₃ heq
        split at h
        · exact absurd h (by simp)
        · rename_i hh r₄ hheight
          split at h
          · rename_i r₅ heq₄
            injection h with h'
            injection h' with he hr
            subst hr
            have l₁ := matchKind_lt hkind
            have l₂ := matchTime_le htime
            have l₃ := matchHeight_le hheight
            simp only [List.length_cons] at l₂ l₃ ⊢
            omega
          · exact absurd h (by simp)
      · exact absurd h (by simp)

theorem findallFuel_nil (fuel : Nat) : findallFuel fuel [] = [] := by
  cases fuel <;> rfl

/-- Fuel irrelevance: any fuel bound of at least the input length produces
the same scan, so `findall` (which uses the length itself) computes the
unbounded left-to-right scan. -/
theorem findallFuel_congr :
    ∀ (k f₁ f₂ : Nat) (cs : List Char), cs.length ≤ k →
      cs.length ≤ f₁ → cs.length ≤ f₂ →
      findallFuel f₁ cs = findallFuel f₂ cs := by
  intro k
  induction k with
  | zero =>
    intro f₁ f₂ cs hk _ _
    have : cs = [] := List.length_eq_zero.mp (Nat.le_zero.mp hk)
    subst this
    rw [findallFuel_nil, findallFuel_nil]
  | succ k ih =>
    intro f₁ f₂ cs hk h₁ h₂
    match cs with
    | [] => rw [findallFuel_nil, findallFuel_nil]
    | c :: cs' =>
      match f₁, f₂ with
      | a + 1, b + 1 =>
        simp only [findallFuel]
        simp only [List.length_cons] at hk h₁ h₂
        cases hm : matchAt (c :: cs') with
        | none =>
          exact ih a b cs' (by omega) (by omega) (by omega)
        | some p =>
          obtain ⟨e, rest⟩ := p
          have hlt : rest.length < cs'.length + 1 := by
            simpa using matchAt_lt hm
          show e :: findallFuel a rest = e :: findallFuel b rest
          rw [ih a b rest (by omega) (by omega) (by omega)]

/-! ## Dictionary laws -/

theorem dictLookup_insert {β : Type} (d : List (String × β)) (k : String)
    (v : β) (k' : String) :
    dictLookup (dictInsert d k v) k' =
      if k = k' then some v else dictLookup d k' := by
  induction d with
  | nil => simp [dictInsert, dictLookup]
  | cons p rest ih =>
    obtain ⟨k₀, v₀⟩ := p
    by_cases h₀ : k₀ = k
    · subst h₀
      by_cases h : k₀ = k'
      · simp [dictInsert, dictLookup, h]
      · simp [dictInsert, dictLookup, h]
    · by_cases h : k₀ = k'
      · subst h
        have : ¬ k = k₀ := fun hk => h₀ hk.symm
        simp [dictInsert, dictLookup, h₀, this]
      · simp [dictInsert, dictLookup, h₀, h, ih]

theorem dictKeys_insert_mem {β : Type} (d : List (String × β)) (k : String)
    (v : β) (h : k ∈ dictKeys d) : dictKeys (dictInsert d k v) = dictKeys d := by
  induction d with
  | nil => simp [dictKeys] at h
  | cons p rest ih =>
    obtain ⟨k₀, v₀⟩ := p
    by_cases h₀ : k₀ = k
    · simp [dictInsert, dictKeys, h₀]
    · have hmem : k ∈ dictKeys rest := by
        simp only [dictKeys, List.map_cons, List.mem_cons] at h
        rcases h with h | h
        · exact absurd h.symm h₀
        · exact h
      calc dictKeys (dictInsert ((k₀, v₀) :: rest) k v)
          = k₀ :: dictKeys (dictInsert rest k v) := by
            simp [dictInsert, dictKeys, h₀]
        _ = k₀ :: dictKeys rest := by rw [ih hmem]
        _ = dictKeys ((k₀, v₀) :: rest) := by simp [dictKeys]

theorem dictKeys_insert_not_mem {β : Type} (d : List (String × β)) (k : String)
    (v : β) (h : k ∉ dictKeys d) :
    dictKeys (dictInsert d k v) = dictKeys d ++ [k] := by
  induction d with
  | nil => simp [dictInsert, dictKeys]
  | cons p rest ih =>
    obtain ⟨k₀, v₀⟩ := p
    have h₀ : k₀ ≠ k := by
      intro he
      exact h (by simp [dictKeys, he])
    have hrest : k ∉ dictKeys rest := by
      intro hm
      exact h (by simp only [dictKeys, List.map_cons, List.mem_cons]; right; exact hm)
    calc dictKeys (dictInsert ((k₀, v₀) :: rest) k v)
        = k₀ :: dictKeys (dictInsert rest k v) := by
          simp [dictInsert, dictKeys, h₀]
      _ = k₀ :: (dictKeys rest ++ [k]) := by rw [ih hrest]
      _ = dictKeys ((k₀, v₀) :: rest) ++ [k] := by simp [dictKeys]

theorem foldl_insert_lookup {β : Type} (f : String → β) (ts : List String)
    (acc : List (String × β)) (d : String) :
    dictLookup (ts.foldl (fun a day => dictInsert a day (f day)) acc) d =
      if d ∈ ts then some (f d) else dictLookup acc d := by
  induction ts generalizing acc with
  | nil => simp
  | cons t ts ih =>
    simp only [List.foldl_cons]
    rw [ih]
    by_cases hd : d ∈ ts
    · simp [hd, List.mem_cons]
    · by_cases ht : d = t
      · subst ht
        simp [hd, dictLookup_insert]
      · have : ¬ t = d := fun he => ht he.symm
        simp [hd, ht, dictLookup_insert, this, List.mem_cons]

theorem foldl_insert_keys {β : Type} (f : String → β) (ts : List String)
    (acc : List (String × β)) (hnd : ts.Nodup)
    (hdisj : ∀ t ∈ ts, t ∉ dictKeys acc) :
    dictKeys (ts.foldl (fun a day => dictInsert a day (f day)) acc) =
      dictKeys acc ++ ts := by
  induction ts generalizing acc with
  | nil => simp
  | cons t ts ih =>
    simp only [List.foldl_cons]
    have hnt : t ∉ dictKeys acc := hdisj t (List.mem_cons_self _ _)
    have hkeys := dictKeys_insert_not_mem acc t (f t) hnt
    rw [ih (dictInsert acc t (f t)) (List.Nodup.of_cons hnd) ?_, hkeys]
    · simp
    · intro s hs
      rw [hkeys]
      simp only [List.mem_append, List.mem_singleton]
      push_neg
      exact ⟨hdisj s (List.mem_cons_of_mem _ hs),
        fun he => (List.nodup_cons.mp hnd).1 (he ▸ hs)⟩

/-! ## Day-label facts -/

theorem strData_append (a b : String) : (a ++ b).data = a.data ++ b.data := rfl

theorem strExt {a b : String} (h : a.data = b.data) : a = b := by
  cases a
  cases b
  exact congrArg String.mk h

theorem weekdayAbbrev_data_length (n : Nat) : (weekdayAbbrev n).data.length = 3 := by
  have h7 : n % 7 = 0 ∨ n % 7 = 1 ∨ n % 7 = 2 ∨ n % 7 = 3 ∨ n % 7 = 4 ∨
      n % 7 = 5 ∨ n % 7 = 6 := by omega
  unfold weekdayAbbrev
  rcases h7 with h | h | h | h | h | h | h <;> rw [h] <;> rfl

theorem day_format_data_take (n : Nat) :
    (day_format n).data.take 3 = (weekdayAbbrev n).data := by
  unfold day_format
  rw [strData_append]
  rw [← weekdayAbbrev_data_length n, List.take_left]

theorem weekdayAbbrev_ne_of_mod_ne (a b : Nat) (h : a % 7 ≠ b % 7) :
    weekdayAbbrev a ≠ weekdayAbbrev b := by
  have hA : a % 7 = 0 ∨ a % 7 = 1 ∨ a % 7 = 2 ∨ a % 7 = 3 ∨ a % 7 = 4 ∨
      a % 7 = 5 ∨ a % 7 = 6 := by omega
  have hB : b % 7 = 0 ∨ b % 7 = 1 ∨ b % 7 = 2 ∨ b % 7 = 3 ∨ b % 7 = 4 ∨
      b % 7 = 5 ∨ b % 7 = 6 := by omega
  unfold weekdayAbbrev
  rcases hA with h₁ | h₁ | h₁ | h₁ | h₁ | h₁ | h₁ <;>
    rcases hB with h₂ | h₂ | h₂ | h₂ | h₂ | h₂ | h₂ <;>
    rw [h₁, h₂] at h ⊢ <;>
    first
      | exact absurd rfl h
      | decide

theorem day_format_ne {a b : Nat} (h : weekdayAbbrev a ≠ weekdayAbbrev b) :
    day_format a ≠ day_format b := by
  intro he
  apply h
  have hd := congrArg (fun s => s.data.take 3) he
  simp only [day_format_data_take] at hd
  exact strExt hd

theorem buildTargetDays_nodup (n : Nat) : (buildTargetDays n).Nodup := by
  have h01 : day_format n ≠ day_format (n + 1) :=
    day_format_ne (weekdayAbbrev_ne_of_mod_ne n (n + 1) (by omega))
  have h02 : day_format n ≠ day_format (n + 2) :=
    day_format_ne (weekdayAbbrev_ne_of_mod_ne n (n + 2) (by omega))
  have h12 : day_format (n + 1) ≠ day_format (n + 2) :=
    day_format_ne (weekdayAbbrev_ne_of_mod_ne (n + 1) (n + 2) (by omega))
  simp [buildTargetDays, List.nodup_cons, h01, h02, h12]

/-! ## Display-string shape -/

theorem renderSchedule_data (e : TideEvent) (rest : List TideEvent) :
    ∃ t : List Char, (renderSchedule (e :: rest)).data = '<' :: 'b' :: '>' :: t := by
  cases rest with
  | nil => exact ⟨_, rfl⟩
  | cons e₂ rest₂ => exact ⟨_, rfl⟩

theorem renderSchedule_head (evs : List TideEvent) :
    renderSchedule evs = "" ∨ (renderSchedule evs).data.take 3 = ['<', 'b', '>'] := by
  cases evs with
  | nil => left; rfl
  | cons e rest =>
    right
    obtain ⟨t, ht⟩ := renderSchedule_data e rest
    rw [ht]
    rfl

theorem renderSchedule_ne_unavailable (evs : List TideEvent) :
    renderSchedule evs ≠ "Data unavailable" := by
  rcases renderSchedule_head evs with h | h <;> intro he <;> rw [he] at h
  · exact absurd h (by decide)
  · exact absurd h (by decide)

theorem renderSchedule_ne_notfound (evs : List TideEvent) :
    renderSchedule evs ≠ "Data not found" := by
  rcases renderSchedule_head evs with h | h <;> intro he <;> rw [he] at h
  · exact absurd h (by decide)
  · exact absurd h (by decide)

/-! ## Day-table facts -/

theorem buildDailyDataAux_values (headers dataCells : List String) (i : Nat)
    (acc : List (String × String))
    (hacc : ∀ k v, dictLookup acc k = some v → ∃ evs, v = renderSchedule evs) :
    ∀ k v, dictLookup (buildDailyDataAux headers dataCells i acc) k = some v →
      ∃ evs, v = renderSchedule evs := by
  induction headers generalizing i acc with
  | nil =>
    intro k v hv
    simp only [buildDailyDataAux] at hv
    exact hacc k v hv
  | cons h hs ih =>
    intro k v hv
    simp only [buildDailyDataAux] at hv
    refine ih _ _ ?_ k v hv
    intro k' v' hk'
    by_cases hg : i < dataCells.length
    · rw [if_pos hg, dictLookup_insert] at hk'
      by_cases he : normalizeSpace h = k'
      · rw [if_pos he] at hk'
        exact ⟨_, (Option.some_injective _ hk').symm⟩
      · rw [if_neg he] at hk'
        exact hacc k' v' hk'
    · rw [if_neg hg] at hk'
      exact hacc k' v' hk'

theorem buildDailyData_values (headers dataCells : List String) (k v : String)
    (h : dictLookup (buildDailyData headers dataCells) k = some v) :
    ∃ evs, v = renderSchedule evs := by
  refine buildDailyDataAux_values headers dataCells 0 [] ?_ k v h
  intro k' v' hk'
  simp [dictLookup] at hk'

theorem buildDailyDataAux_append (xs ys dataCells : List String) (i : Nat)
    (acc : List (String × String)) :
    buildDailyDataAux (xs ++ ys) dataCells i acc =
      buildDailyDataAux ys dataCells (i + xs.length)
        (buildDailyDataAux xs dataCells i acc) := by
  induction xs generalizing i acc with
  | nil => simp [buildDailyDataAux]
  | cons x xs ih =>
    simp only [List.cons_append, buildDailyDataAux, List.length_cons]
    rw [show xs.append ys = xs ++ ys from rfl, ih,
      show i + 1 + xs.length = i + (xs.length + 1) from by omega]

theorem buildDailyDataAux_no_key (headers dataCells : List String) (i : Nat)
    (acc : List (String × String)) (k : String)
    (h : ∀ x ∈ headers, normalizeSpace x ≠ k) :
    dictLookup (buildDailyDataAux headers dataCells i acc) k = dictLookup acc k := by
  induction headers generalizing i acc with
  | nil => simp [buildDailyDataAux]
  | cons x xs ih =>
    simp only [buildDailyDataAux]
    rw [ih _ _ (fun y hy => h y (List.mem_cons_of_mem _ hy))]
    by_cases hg : i < dataCells.length
    · rw [if_pos hg, dictLookup_insert, if_neg (h x (List.mem_cons_self _ _))]
    · rw [if_neg hg]

/-! ## Scrape and per-location facts -/

theorem scrape_none_iff (headers dataCells : List String) (ts : List String) :
    scrape_tide_times (some (headers, dataCells)) ts = none ↔
      (headers = [] ∨ dataCells = [] ∨ headers.length ≠ dataCells.length) := by
  simp only [scrape_tide_times]
  split
  · simp [*]
  · simp [*]

theorem scrape_some_lookup (headers dataCells ts : List String)
    (tbl : List (String × String)) (day : String)
    (hs : scrape_tide_times (some (headers, dataCells)) ts = some tbl)
    (hday : day ∈ ts) :
    dictLookup tbl day =
      some (match dictLookup (buildDailyData headers dataCells) day with
            | some v => v
            | none => "Data not found") := by
  simp only [scrape_tide_times] at hs
  split at hs
  · exact absurd hs (by simp)
  · have htbl := Option.some_injective _ hs
    subst htbl
    have := foldl_insert_lookup
      (fun day => match dictLookup (buildDailyData headers dataCells) day with
                  | some v => v
                  | none => "Data not found") ts [] day
    rw [this, if_pos hday]

theorem fallbackTable_lookup (ts : List String) (day : String) (hday : day ∈ ts) :
    dictLookup (fallbackTable ts) day = some "Data unavailable" := by
  have := foldl_insert_lookup (fun _ => "Data unavailable") ts [] day
  simp only [fallbackTable]
  rw [this, if_pos hday]

theorem fallbackTable_keys (ts : List String) (hnd : ts.Nodup) :
    dictKeys (fallbackTable ts) = ts := by
  have := foldl_insert_keys (fun _ => "Data unavailable") ts [] hnd
    (by intro t _; simp [dictKeys])
  simpa [fallbackTable] using this

theorem scrape_some_keys (headers dataCells ts : List String)
    (tbl : List (String × String)) (hnd : ts.Nodup)
    (hs : scrape_tide_times (some (headers, dataCells)) ts = some tbl) :
    dictKeys tbl = ts := by
  simp only [scrape_tide_times] at hs
  split at hs
  · exact absurd hs (by simp)
  · have htbl := Option.some_injective _ hs
    subst htbl
    have := foldl_insert_keys
      (fun day => match dictLookup (buildDailyData headers dataCells) day with
                  | some v => v
                  | none => "Data not found") ts [] hnd
      (by intro t _; simp [dictKeys])
    simpa using this

theorem locationEntry_keys (located : Option (List String × List String))
    (ts : List String) (hnd : ts.Nodup) :
    dictKeys (locationEntry located ts) = ts := by
  unfold locationEntry
  cases hs : scrape_tide_times located ts with
  | none => exact fallbackTable_keys ts hnd
  | some tbl =>
    cases located with
    | none => simp [scrape_tide_times] at hs
    | some p =>
      obtain ⟨headers, dataCells⟩ := p
      have hk := scrape_some_keys headers dataCells ts tbl hnd hs
      by_cases he : tbl.isEmpty
      · simp only [he, if_true]
        exact fallbackTable_keys ts hnd
      · simp only [he, if_false]
        exact hk

/-! ## Extraction kinds -/

theorem matchKind_kind {cs : List Char} {k : String} {r : List Char}
    (h : matchKind cs = some (k, r)) : k = "Low" ∨ k = "High" := by
  unfold matchKind at h
  split at h
  · injection h with h'
    injection h' with hk _
    exact Or.inl hk.symm
  · split at h
    · injection h with h'
      injection h' with hk _
      exact Or.inr hk.symm
    · exact absurd h (by simp)

theorem matchAt_kind {cs : List Char} {e : TideEvent} {r : List Char}
    (h : matchAt cs = some (e, r)) : e.kind = "Low" ∨ e.kind = "High" := by
  unfold matchAt at h
  split at h
  · exact absurd h (by simp)
  · rename_i k r₁ hkind
    split at h
    · exact absurd h (by simp)
    · split at h
      · split at h
        · exact absurd h (by simp)
        · split at h
          · injection h with h'
            injection h' with he _
            have := matchKind_kind hkind
            rw [← he]
            exact this
          · exact absurd h (by simp)
      · exact absurd h (by simp)

theorem findallFuel_kind (fuel : Nat) (cs : List Char) (e : TideEvent)
    (h : e ∈ findallFuel fuel cs) : e.kind = "Low" ∨ e.kind = "High" := by
  induction fuel generalizing cs with
  | zero => simp [findallFuel] at h
  | succ fuel ih =>
    cases cs with
    | nil => simp [findallFuel] at h
    | cons c cs' =>
      rw [findallFuel] at h
      cases hm : matchAt (c :: cs') with
      | none =>
        rw [hm] at h
        exact ih cs' h
      | some p =>
        obtain ⟨e₀, rest⟩ := p
        rw [hm] at h
        rcases List.mem_cons.mp h with he | he
        · subst he
          exact matchAt_kind hm
        · exact ih rest he

/-! ## Per-location entry -/

theorem locationEntry_of_none (located : Option (List String × List String))
    (ts : List String) (h : scrape_tide_times located ts = none) :
    locationEntry located ts = fallbackTable ts := by
  unfold locationEntry
  rw [h]

theorem locationEntry_of_some (located : Option (List String × List String))
    (ts : List String) (tbl : List (String × String))
    (h : scrape_tide_times located ts = some tbl) (hne : tbl ≠ []) :
    locationEntry located ts = tbl := by
  unfold locationEntry
  rw [h]
  have hf : tbl.isEmpty = false := by
    cases tbl with
    | nil => exact absurd rfl hne
    | cons p rest => rfl
  show (if tbl.isEmpty = true then fallbackTable ts else tbl) = tbl
  rw [hf]
  rfl

theorem dictLookup_some_ne_nil {β : Type} {tbl : List (String × β)} {day : String}
    {v : β} (h : dictLookup tbl day = some v) : tbl ≠ [] := by
  intro he
  rw [he] at h
  simp [dictLookup] at h

/-! ## Claim theorems -/

/-- C4: `get_day_suffix` returns "th" whenever the day's residue mod 100 lies
in 10..20; otherwise it returns "st"/"nd"/"rd" for residues 1/2/3 mod 10 and
"th" for every other residue; in particular days 11, 12, 13 give "th", days
1, 21, 31 give "st", days 2, 22 give "nd", and days 3, 23 give "rd". -/
theorem claim_ordinal_suffix :
    (∀ d : Nat, 10 ≤ d % 100 → d % 100 ≤ 20 → get_day_suffix d = "th")
    ∧ (∀ d : Nat, ¬ (10 ≤ d % 100 ∧ d % 100 ≤ 20) →
        (d % 10 = 1 → get_day_suffix d = "st")
        ∧ (d % 10 = 2 → get_day_suffix d = "nd")
        ∧ (d % 10 = 3 → get_day_suffix d = "rd")
        ∧ (d % 10 ≠ 1 → d % 10 ≠ 2 → d % 10 ≠ 3 → get_day_suffix d = "th"))
    ∧ get_day_suffix 11 = "th" ∧ get_day_suffix 12 = "th"
    ∧ get_day_suffix 13 = "th" ∧ get_day_suffix 1 = "st"
    ∧ get_day_suffix 21 = "st" ∧ get_day_suffix 31 = "st"
    ∧ get_day_suffix 2 = "nd" ∧ get_day_suffix 22 = "nd"
    ∧ get_day_suffix 3 = "rd" ∧ get_day_suffix 23 = "rd" := by
  refine ⟨?_, ?_, by decide, by decide, by decide, by decide, by decide,
    by decide, by decide, by decide, by decide, by decide⟩
  · intro d h₁ h₂
    unfold get_day_suffix
    rw [if_pos ⟨h₁, h₂⟩]
  · intro d hneg
    refine ⟨?_, ?_, ?_, ?_⟩
    · intro h
      unfold get_day_suffix
      rw [if_neg hneg, h]
    · intro h
      unfold get_day_suffix
      rw [if_neg hneg, h]
    · intro h
      unfold get_day_suffix
      rw [if_neg hneg, h]
    · intro h₁ h₂ h₃
      unfold get_day_suffix
      rw [if_neg hneg]
      have h₀ : d % 10 = 0 ∨ d % 10 = 4 ∨ d % 10 = 5 ∨ d % 10 = 6 ∨
          d % 10 = 7 ∨ d % 10 = 8 ∨ d % 10 = 9 := by omega
      rcases h₀ with h | h | h | h | h | h | h <;> rw [h]

/-- Witness for C4: day 110 exercises the teens rule (110 mod 100 = 10), day
24 the default branch of the mod-10 table. -/
theorem claim_ordinal_suffix_witness :
    (10 ≤ 110 % 100 ∧ 110 % 100 ≤ 20 ∧ get_day_suffix 110 = "th")
    ∧ (¬ (10 ≤ 24 % 100 ∧ 24 % 100 ≤ 20) ∧ get_day_suffix 24 = "th") :=
  ⟨⟨by decide, by decide, claim_ordinal_suffix.1 110 (by decide) (by decide)⟩,
   ⟨by decide, (claim_ordinal_suffix.2.1 24 (by decide)).2.2.2
      (by decide) (by decide) (by decide)⟩⟩

/-- C7: for every reference day, `buildTargetDays` returns exactly 3 pairwise
distinct day-labels, chronologically the labels of the reference day, the
next day and the day after, each independently rendered as a 3-letter
weekday abbreviation, ", ", the day of month and its ordinal suffix. -/
theorem claim_build_target_days (n : Nat) :
    (buildTargetDays n).length = 3
    ∧ buildTargetDays n = [day_format n, day_format (n + 1), day_format (n + 2)]
    ∧ (buildTargetDays n).Nodup
    ∧ (∀ m : Nat, day_format m =
        weekdayAbbrev m ++
          (", " ++ (toString (dayOfMonth m) ++ get_day_suffix (dayOfMonth m))))
    ∧ (∀ m : Nat, (weekdayAbbrev m).data.length = 3) :=
  ⟨rfl, rfl, buildTargetDays_nodup n, fun _ => rfl, weekdayAbbrev_data_length⟩

/-- C2: for every reference instant and every scrape outcome, the key list of
each configured location's TargetDayTable is exactly the 3 computed target
day-labels. -/
theorem claim_target_table_keys
    (outcome : String → Option (List String × List String)) (n : Nat) :
    (fetch_scraped_tides outcome n).map (fun p => dictKeys p.2) =
      [buildTargetDays n, buildTargetDays n]
    ∧ (buildTargetDays n).length = 3 := by
  constructor
  · simp only [fetch_scraped_tides, locations_to_scrape, List.map_cons,
      List.map_nil]
    rw [locationEntry_keys _ _ (buildTargetDays_nodup n),
      locationEntry_keys _ _ (buildTargetDays_nodup n)]
  · rfl

/-- C5: with located cells in hand, pairing validation aborts the location
scrape (returning the failure result and no table) precisely when the header
cells are empty, the data cells are empty, or the two collections differ in
length; in particular headers ["A", "B"] against data cells ["x"] fail. -/
theorem claim_pairing_validation (headers dataCells ts : List String) :
    (scrape_tide_times (some (headers, dataCells)) ts = none ↔
      (headers = [] ∨ dataCells = [] ∨ headers.length ≠ dataCells.length))
    ∧ scrape_tide_times (some (["A", "B"], ["x"])) ts = none := by
  refine ⟨scrape_none_iff headers dataCells ts, ?_⟩
  rw [scrape_none_iff]
  exact Or.inr (Or.inr (by decide))

/-- C8: the tide-page fetch `requests.get(url, headers=headers, verify=False)`
passes no `timeout` argument, so the timeout of every issued fetch is `none`
(the requests wait-forever default) rather than a bounded finite value. -/
theorem claim_fetch_timeout_missing :
    ∀ url : String, (tideFetchCall url).timeout = none :=
  fun _ => rfl

/-- C1: sentinel regimes per location run: when the fetch/locate/pair
pipeline fails, the location's table holds "Data unavailable" at every
target day-label (no mix with real data); when it succeeds, the stored table
is the scrape result, whose entry is "Data not found" exactly at the target
labels absent from the scraped day table and is never "Data unavailable". -/
theorem claim_sentinel_regimes (headers dataCells : List String)
    (located : Option (List String × List String)) (n : Nat) (day : String)
    (hday : day ∈ buildTargetDays n) :
    (scrape_tide_times located (buildTargetDays n) = none →
      dictLookup (locationEntry located (buildTargetDays n)) day =
        some "Data unavailable")
    ∧ (∀ tbl,
        scrape_tide_times (some (headers, dataCells)) (buildTargetDays n) =
          some tbl →
        locationEntry (some (headers, dataCells)) (buildTargetDays n) = tbl
        ∧ (dictLookup tbl day = some "Data not found" ↔
            dictLookup (buildDailyData headers dataCells) day = none)
        ∧ dictLookup tbl day ≠ some "Data unavailable") := by
  constructor
  · intro h
    rw [locationEntry_of_none _ _ h]
    exact fallbackTable_lookup _ _ hday
  · intro tbl hs
    have hlook := scrape_some_lookup headers dataCells _ tbl day hs hday
    refine ⟨locationEntry_of_some _ _ _ hs (dictLookup_some_ne_nil hlook), ?_, ?_⟩
    · cases hd : dictLookup (buildDailyData headers dataCells) day with
      | none =>
        simp only [hd] at hlook
        simp [hlook]
      | some v =>
        simp only [hd] at hlook
        obtain ⟨evs, he⟩ := buildDailyData_values _ _ _ _ hd
        subst he
        constructor
        · intro hw
          rw [hlook] at hw
          exact absurd (Option.some_injective _ hw)
            (renderSchedule_ne_notfound evs)
        · intro hw
          exact absurd hw (by simp)
    · cases hd : dictLookup (buildDailyData headers dataCells) day with
      | none =>
        simp only [hd] at hlook
        rw [hlook]
        intro hw
        exact absurd (Option.some_injective _ hw) (by decide)
      | some v =>
        simp only [hd] at hlook
        obtain ⟨evs, he⟩ := buildDailyData_values _ _ _ _ hd
        subst he
        rw [hlook]
        intro hw
        exact absurd (Option.some_injective _ hw)
          (renderSchedule_ne_unavailable evs)

/-- Witness for C1: a wholly failed location run at reference day 0 shows the
"Data unavailable" sentinel at the first target label. -/
theorem claim_sentinel_regimes_witness :
    day_format 0 ∈ buildTargetDays 0
    ∧ dictLookup (locationEntry none (buildTargetDays 0)) (day_format 0) =
        some "Data unavailable" :=
  ⟨by decide,
   (claim_sentinel_regimes [] [] none 0 (day_format 0) (by decide)).1 rfl⟩

/-- C3: event extraction over the spec's example cell text yields exactly the
two events, in match order, ignoring the surrounding noise, with the exact
display string; and every event any cell text extracts has kind exactly
"Low" or "High". -/
theorem claim_event_extraction :
    findall "Low 05:33am (2.02m) some noise High 11:47pm (4.10m)" =
      [⟨"Low", "05:33am", "2.02m"⟩, ⟨"High", "11:47pm", "4.10m"⟩]
    ∧ renderSchedule
        (findall "Low 05:33am (2.02m) some noise High 11:47pm (4.10m)") =
        "<b>Low</b> 05:33am (2.02m) | <b>High</b> 11:47pm (4.10m)"
    ∧ (∀ (s : String) (e : TideEvent), e ∈ findall s →
        e.kind = "Low" ∨ e.kind = "High") := by
  refine ⟨by decide, by decide, ?_⟩
  intro s e h
  exact findallFuel_kind _ _ _ h

/-- Witness for C3: membership of the first extracted event of a concrete
cell, with its kind. -/
theorem claim_event_extraction_witness :
    (⟨"Low", "05:33am", "2.02m"⟩ : TideEvent) ∈ findall "Low 05:33am (2.02m)"
    ∧ ((⟨"Low", "05:33am", "2.02m"⟩ : TideEvent).kind = "Low" ∨
        (⟨"Low", "05:33am", "2.02m"⟩ : TideEvent).kind = "High") :=
  ⟨by decide, claim_event_extraction.2.2 "Low 05:33am (2.02m)" _ (by decide)⟩

/-- C9: locations are processed independently: if two outcome assignments
agree on one configured location's URL, the orchestrator's entry for that
location is identical, whatever the other locations' outcomes (including
total failure). -/
theorem claim_location_isolation
    (o₁ o₂ : String → Option (List String × List String)) (n : Nat)
    (name url : String) (hmem : (name, url) ∈ locations_to_scrape)
    (hsame : o₁ url = o₂ url) :
    dictLookup (fetch_scraped_tides o₁ n) name =
      dictLookup (fetch_scraped_tides o₂ n) name := by
  simp only [locations_to_scrape, List.mem_cons, List.not_mem_nil, or_false,
    Prod.mk.injEq] at hmem
  rcases hmem with ⟨hn, hu⟩ | ⟨hn, hu⟩ <;> subst hn <;> subst hu <;>
    simp only [fetch_scraped_tides, locations_to_scrape, List.map_cons,
      List.map_nil, dictLookup, hsame] <;>
    simp [hsame]

/-- Witness for C9: the Cork entry is unchanged when Kerry's outcome flips
from failure to a successful scrape. -/
theorem claim_location_isolation_witness :
    ("Cork", "https://www.tidetime.org/europe/ireland/cork.htm") ∈
      locations_to_scrape
    ∧ dictLookup (fetch_scraped_tides (fun _ => none) 0) "Cork" =
        dictLookup
          (fetch_scraped_tides
            (fun url =>
              if url = "https://www.tidetime.org/europe/ireland/fenit.htm"
              then some (["Thu, 1st"], ["Low 05:33am (2.02m)"]) else none)
            0) "Cork" :=
  ⟨by decide,
   claim_location_isolation (fun _ => none)
     (fun url =>
       if url = "https://www.tidetime.org/europe/ireland/fenit.htm"
       then some (["Thu, 1st"], ["Low 05:33am (2.02m)"]) else none)
     0 "Cork" "https://www.tidetime.org/europe/ireland/cork.htm"
     (by decide) (by decide)⟩

/-- Unfolding of `locateRows` once the header row is located and truthy. -/
theorem locateRows_unfold (table hr : Node) (sibs : List Node)
    (hh : headerSearch table = some (hr, sibs)) (hhr : truthy (some hr) = true) :
    locateRows table =
      match
        (if truthy (tbodyRow table) = true then tbodyRow table
         else
           if truthy (siblingRow sibs) = true then siblingRow sibs
           else
             match secondRow table with
             | some r => some r
             | none => tbodyRow table)
      with
      | some dr => if truthy (some dr) = true then some (hr, dr) else none
      | none => none := by
  unfold locateRows
  rw [hh]
  simp only [hhr, if_true]

/-- C6: the data-row locator tries, in order: (a) a truthy row found inside
the table's `tbody`, (b) the next truthy `tr` sibling of the header row,
(c) the second of all `tr` descendants of the table; and on a table with no
`thead` and no `tbody` containing exactly two `tr` elements it succeeds,
taking the first `tr` as header row and the second as data row. -/
theorem claim_locator_chain (table hr : Node) (sibs : List Node)
    (hh : headerSearch table = some (hr, sibs)) (hhr : truthy (some hr) = true) :
    (∀ r, tbodyRow table = some r → truthy (some r) = true →
      locateRows table = some (hr, r))
    ∧ (truthy (tbodyRow table) = false →
        ∀ r, siblingRow sibs = some r → truthy (some r) = true →
          locateRows table = some (hr, r))
    ∧ (truthy (tbodyRow table) = false → truthy (siblingRow sibs) = false →
        ∀ r, secondRow table = some r → truthy (some r) = true →
          locateRows table = some (hr, r))
    ∧ locateRows sampleTable = some (sampleHeaderRow, sampleDataRow) := by
  refine ⟨?_, ?_, ?_, rfl⟩
  · intro r h₁ h₂
    rw [locateRows_unfold table hr sibs hh hhr, h₁]
    simp [h₂]
  · intro h₀ r h₁ h₂
    rw [locateRows_unfold table hr sibs hh hhr, h₁]
    simp [h₀, h₂]
  · intro h₀ h₁ r h₂ h₃
    rw [locateRows_unfold table hr sibs hh hhr, h₂]
    simp [h₀, h₁, h₃]

/-- Witness for C6: the two-row sample table goes through the sibling
strategy and returns (header row, data row). -/
theorem claim_locator_chain_witness :
    headerSearch sampleTable = some (sampleHeaderRow, [sampleDataRow])
    ∧ truthy (some sampleHeaderRow) = true
    ∧ locateRows sampleTable = some (sampleHeaderRow, sampleDataRow) :=
  ⟨rfl, rfl,
   (claim_locator_chain sampleTable sampleHeaderRow [sampleDataRow] rfl rfl).2.1
     rfl sampleDataRow rfl rfl⟩

/-- C10: for a successfully scraped location, a target day-label that is
present among the (normalized) header cells but whose paired cell text
contains zero grammar matches gets the empty display string as its
TargetDayTable entry — not a sentinel. -/
theorem claim_empty_schedule_entry (pre post dataCells : List String)
    (hdr : String) (n : Nat)
    (hlen : (pre ++ hdr :: post).length = dataCells.length)
    (hpost : ∀ x ∈ post, normalizeSpace x ≠ normalizeSpace hdr)
    (hzero : findall (dataCells.getD pre.length "") = [])
    (hday : normalizeSpace hdr ∈ buildTargetDays n) :
    dictLookup
      (locationEntry (some (pre ++ hdr :: post, dataCells)) (buildTargetDays n))
      (normalizeSpace hdr) = some "" := by
  have hguard : pre.length < dataCells.length := by
    rw [← hlen]
    simp only [List.length_append, List.length_cons]
    omega
  have hdaily :
      dictLookup (buildDailyData (pre ++ hdr :: post) dataCells)
        (normalizeSpace hdr) = some "" := by
    unfold buildDailyData
    rw [buildDailyDataAux_append]
    simp only [buildDailyDataAux]
    rw [if_pos (show 0 + pre.length < dataCells.length from by omega)]
    rw [buildDailyDataAux_no_key post dataCells _ _ _ hpost]
    rw [dictLookup_insert, if_pos rfl]
    rw [Nat.zero_add, hzero]
    rfl
  cases hscr :
      scrape_tide_times (some (pre ++ hdr :: post, dataCells))
        (buildTargetDays n) with
  | none =>
    rw [scrape_none_iff] at hscr
    rcases hscr with h | h | h
    · exact absurd h (by simp)
    · rw [h] at hlen
      simp only [List.length_append, List.length_cons, List.length_nil] at hlen
      omega
    · exact absurd hlen h
  | some tbl =>
    have hlook := scrape_some_lookup _ _ _ tbl (normalizeSpace hdr) hscr hday
    simp only [hdaily] at hlook
    rw [locationEntry_of_some _ _ _ hscr (dictLookup_some_ne_nil hlook)]
    exact hlook

/-- Witness for C10: a two-column success where the first target label's cell
has no grammar match yields the empty string entry. -/
theorem claim_empty_schedule_entry_witness :
    (([] ++ "Thu, 1st" :: ["Fri, 2nd"] : List String).length =
      (["no tides today", "x"] : List String).length)
    ∧ findall ((["no tides today", "x"] : List String).getD
        ([] : List String).length "") = []
    ∧ normalizeSpace "Thu, 1st" ∈ buildTargetDays 0
    ∧ dictLookup
        (locationEntry (some ([] ++ "Thu, 1st" :: ["Fri, 2nd"],
          ["no tides today", "x"])) (buildTargetDays 0))
        (normalizeSpace "Thu, 1st") = some "" :=
  ⟨by decide, by decide, by decide,
   claim_empty_schedule_entry [] ["Fri, 2nd"] ["no tides today", "x"]
     "Thu, 1st" 0 (by decide) (by decide) (by decide) (by decide)⟩
